import Mathlib

/-!
Shallow embedding of the SRDF semantic model loader (`srdf::Model`, file
`src/srdf/src/model.cpp`) and proofs about its behaviour.

The XML document tree and the URDF kinematic model are external
collaborators of the loader; they are embedded at their interface:
an XML element is a tag, an attribute list and a child list, and the
kinematic model provides link/joint existence and a parent-link lookup.
Numeric parsing (`boost::lexical_cast<double>` in the source) is an
external function as well; the embedding is parametric in a parse
function `pn : String -> Option Int` (`none` models a thrown
`bad_lexical_cast`).  The unbounded parent-link walks of the source are
embedded with an explicit fuel parameter.
-/

namespace Srdf

/-- `boost::trim`: drop leading and trailing whitespace.  (Defined over
the character list so that it evaluates by kernel reduction.) -/
def trimStr (s : String) : String :=
  String.mk (((s.data.dropWhile Char.isWhitespace).reverse.dropWhile
    Char.isWhitespace).reverse)

/-- `std::transform(..., ::tolower)`: lowercase every character
(ASCII, as in the C locale). -/
def lowerStr (s : String) : String :=
  String.mk (s.data.map Char.toLower)

/-- An XML element: tag, attributes (lookup by name returns the first
match, as in TinyXML), and child elements in document order. -/
inductive XmlElement : Type where
  | node (tag : String) (attrs : List (String × String)) (children : List XmlElement)

def XmlElement.tag : XmlElement → String
  | .node t _ _ => t

def XmlElement.attrs : XmlElement → List (String × String)
  | .node _ a _ => a

def XmlElement.children : XmlElement → List XmlElement
  | .node _ _ c => c

/-- `e->Attribute(n)`: first attribute named `n`, if any. -/
def XmlElement.attrVal (e : XmlElement) (n : String) : Option String :=
  e.attrs.lookup n

/-- The `FirstChildElement(t)` / `NextSiblingElement(t)` iteration:
the child elements with tag `t`, in document order. -/
def XmlElement.childrenTagged (e : XmlElement) (t : String) : List XmlElement :=
  e.children.filter (fun c => c.tag == t)

/-- A parsed XML document: its top-level elements. -/
structure XmlDocument : Type where
  rootElems : List XmlElement

/-- `doc->FirstChildElement("robot")`. -/
def XmlDocument.findRobot (d : XmlDocument) : Option XmlElement :=
  d.rootElems.find? (fun e => e.tag == "robot")

/-- The URDF kinematic model, at the interface the loader consumes:
model name, link names, joint names, and the parent-link relation
(`child link name ↦ parent link name`; a link absent from `parents`
has no parent, i.e. `getParent()` returns null). -/
structure UrdfModel : Type where
  name : String
  links : List String
  joints : List String
  parents : List (String × String)

/-- `urdf_model.getLink(n)` is non-null. -/
def UrdfModel.hasLink (m : UrdfModel) (n : String) : Bool :=
  decide (n ∈ m.links)

/-- `urdf_model.getJoint(n)` is non-null. -/
def UrdfModel.hasJoint (m : UrdfModel) (n : String) : Bool :=
  decide (n ∈ m.joints)

/-- `link->getParent()`, at the level of link names. -/
def UrdfModel.parentOf (m : UrdfModel) (n : String) : Option String :=
  m.parents.lookup n

/-! ### Model entities (`srdf::Model` member structs) -/

structure VirtualJoint : Type where
  name_ : String
  child_link_ : String
  parent_frame_ : String
  type_ : String
deriving DecidableEq, Repr

structure Group : Type where
  name_ : String
  links_ : List String
  joints_ : List String
  chains_ : List (String × String)
  subgroups_ : List String
deriving DecidableEq, Repr

structure GroupState : Type where
  name_ : String
  group_ : String
  joint_values_ : List (String × List Int)
deriving DecidableEq, Repr

structure EndEffector : Type where
  name_ : String
  component_group_ : String
  parent_link_ : String
deriving DecidableEq, Repr

structure VisualSensor : Type where
  name_ : String
  frame_ : String
  fov_angle_ : Int
  min_range_ : Int
  max_range_ : Int
deriving DecidableEq, Repr

structure Model : Type where
  name_ : String
  groups_ : List Group
  group_states_ : List GroupState
  virtual_joints_ : List VirtualJoint
  end_effectors_ : List EndEffector
  visual_sensors_ : List VisualSensor
  disabled_collisions_ : List (String × String)
deriving DecidableEq, Repr

/-- The empty model. -/
def Model.empty : Model :=
  { name_ := "", groups_ := [], group_states_ := [], virtual_joints_ := [],
    end_effectors_ := [], visual_sensors_ := [], disabled_collisions_ := [] }

/-- `srdf::Model::clear()`: every field is reset. -/
def Model.clear (_m : Model) : Model := Model.empty

/-! ### Virtual joints (`loadVirtualJoints`) -/

/-- One `<virtual_joint>` element: `none` when the element is skipped
(missing attribute or unknown child link), otherwise the entity pushed
onto `virtual_joints_`. -/
def processVirtualJoint (m : UrdfModel) (e : XmlElement) : Option VirtualJoint :=
  match e.attrVal "name" with
  | none => none
  | some jname =>
    match e.attrVal "child_link" with
    | none => none
    | some child =>
      if m.hasLink (trimStr child) then
        match e.attrVal "parent_frame" with
        | none => none
        | some parent =>
          match e.attrVal "type" with
          | none => none
          | some ty =>
            let t0 := lowerStr (trimStr ty)
            let t1 := if t0 ≠ "planar" ∧ t0 ≠ "floating" ∧ t0 ≠ "fixed" then "fixed" else t0
            some { name_ := trimStr jname, child_link_ := trimStr child,
                   parent_frame_ := trimStr parent, type_ := t1 }
      else none

def loadVirtualJoints (m : UrdfModel) (robot : XmlElement) : List VirtualJoint :=
  (robot.childrenTagged "virtual_joint").filterMap (processVirtualJoint m)

/-! ### Groups (`loadGroups`) -/

/-- One `<link>` child of a `<group>`. -/
def processGroupLink (m : UrdfModel) (e : XmlElement) : Option String :=
  match e.attrVal "name" with
  | none => none
  | some l =>
    let ls := trimStr l
    if m.hasLink ls then some ls else none

/-- A joint name counts as existing when the URDF knows it or when an
already-accepted virtual joint carries it. -/
def jointKnown (m : UrdfModel) (vjs : List VirtualJoint) (j : String) : Bool :=
  m.hasJoint j || vjs.any (fun v => v.name_ == j)

/-- One `<joint>` child of a `<group>`. -/
def processGroupJoint (m : UrdfModel) (vjs : List VirtualJoint) (e : XmlElement) :
    Option String :=
  match e.attrVal "name" with
  | none => none
  | some j =>
    let js := trimStr j
    if jointKnown m vjs js then some js else none

/-- First chain loop: walk up from the tip, inserting every visited
link into `seen`, until the base is found or the root is passed.
Returns the `found` flag and the visited (`seen`) list. -/
def chainSearchTip (m : UrdfModel) (base : String) : Nat → String → Bool × List String
  | 0, _ => (false, [])
  | fuel + 1, cur =>
    if cur = base then (true, [cur])
    else
      match m.parentOf cur with
      | none => (false, [cur])
      | some p =>
        let r := chainSearchTip m base fuel p
        (r.1, cur :: r.2)

/-- Second chain loop: walk up from the base until a node already in
`seen` is met or the root is passed. -/
def chainSearchBase (m : UrdfModel) (seen : List String) : Nat → String → Bool
  | 0, _ => false
  | fuel + 1, cur =>
    if cur ∈ seen then true
    else
      match m.parentOf cur with
      | none => false
      | some p => chainSearchBase m seen fuel p

/-- The two-pass chain connectivity check of `loadGroups`. -/
def chainOk (m : UrdfModel) (fuel : Nat) (base tip : String) : Bool :=
  let r := chainSearchTip m base fuel tip
  if r.1 then true else chainSearchBase m r.2 fuel base

/-- One `<chain>` child of a `<group>`: the pair pushed onto
`chains_`, or `none` when the element is skipped or rejected. -/
def processChain (m : UrdfModel) (fuel : Nat) (e : XmlElement) :
    Option (String × String) :=
  match e.attrVal "base_link", e.attrVal "tip_link" with
  | some b, some t =>
    let bs := trimStr b
    let ts := trimStr t
    if m.hasLink bs then
      if m.hasLink ts then
        if chainOk m fuel bs ts then some (bs, ts) else none
      else none
    else none
  | _, _ => none

/-- One `<group>` element (before subgroup resolution). -/
def processGroup (m : UrdfModel) (vjs : List VirtualJoint) (fuel : Nat)
    (e : XmlElement) : Option Group :=
  match e.attrVal "name" with
  | none => none
  | some gname =>
    some { name_ := trimStr gname,
           links_ := (e.childrenTagged "link").filterMap (processGroupLink m),
           joints_ := (e.childrenTagged "joint").filterMap (processGroupJoint m vjs),
           chains_ := (e.childrenTagged "chain").filterMap (processChain m fuel),
           subgroups_ :=
             (e.childrenTagged "group").filterMap
               (fun c => (c.attrVal "name").map trimStr) }

/-- One pass of the subgroup closure over a single group: insert its
name when it is not yet known and all its subgroups are. -/
def scanStep (known : List String) (g : Group) : List String :=
  if g.name_ ∈ known then known
  else if g.subgroups_.all (fun s => decide (s ∈ known)) then known ++ [g.name_]
  else known

/-- One full scan of the group list (the body of the `while (update)`
loop; insertions are visible to later groups of the same scan). -/
def scanGroups (gs : List Group) (known : List String) : List String :=
  gs.foldl scanStep known

/-- The `while (update)` fixed-point iteration: rescan until a scan
adds no name (fuel bounds the number of scans; `gs.length + 1` scans
always suffice, see `computeKnown_stable`). -/
def computeKnown (gs : List Group) : Nat → List String → List String
  | 0, known => known
  | fuel + 1, known =>
    let k2 := scanGroups gs known
    if k2.length = known.length then known
    else computeKnown gs fuel k2

/-- The known-group names computed by `loadGroups`. -/
def knownNames (gs : List Group) : List String :=
  computeKnown gs (gs.length + 1) []

/-- The post-processing of `loadGroups`: when some group name is not
known, keep only the groups whose name is known. -/
def resolveGroups (gs : List Group) : List Group :=
  let known := knownNames gs
  if known.length = gs.length then gs
  else gs.filter (fun g => decide (g.name_ ∈ known))

def loadGroups (m : UrdfModel) (vjs : List VirtualJoint) (fuel : Nat)
    (robot : XmlElement) : List Group :=
  resolveGroups ((robot.childrenTagged "group").filterMap (processGroup m vjs fuel))

/-! ### Group states (`loadGroupStates`) -/

/-- Helper for `tokenize`: scan the characters, accumulating the
current (reversed) token. -/
def tokenizeAux : List Char → List Char → List String
  | [], cur => if cur.isEmpty then [] else [String.mk cur.reverse]
  | c :: cs, cur =>
    if c.isWhitespace then
      if cur.isEmpty then tokenizeAux cs []
      else String.mk cur.reverse :: tokenizeAux cs []
    else tokenizeAux cs (c :: cur)

/-- The tokens the `std::stringstream` extraction loop (`ss >> val`)
reads from a `value` attribute: maximal whitespace-free substrings. -/
def tokenize (s : String) : List String :=
  tokenizeAux s.data []

/-- The token-parsing loop: one `try` block wraps the whole loop, so
the first token that fails to parse aborts the remainder of this value
list. -/
def parseTokens (pn : String → Option Int) : List String → List Int
  | [] => []
  | t :: ts =>
    match pn t with
    | none => []
    | some v => v :: parseTokens pn ts

/-- Append values for joint `j` to the `joint_values_` map (an entry
is created on the first successfully parsed value). -/
def addJointValues (jv : List (String × List Int)) (j : String) (vals : List Int) :
    List (String × List Int) :=
  if vals.isEmpty then jv
  else
    match jv.lookup j with
    | none => jv ++ [(j, vals)]
    | some _ => jv.map (fun p => if p.1 = j then (p.1, p.2 ++ vals) else p)

/-- One `<joint>` child of a `<group_state>`: skipped (map unchanged)
when an attribute is missing or the joint is unknown. -/
def stepStateJoint (m : UrdfModel) (vjs : List VirtualJoint)
    (pn : String → Option Int) (jv : List (String × List Int)) (e : XmlElement) :
    List (String × List Int) :=
  match e.attrVal "name", e.attrVal "value" with
  | some jn, some jval =>
    let js := trimStr jn
    if jointKnown m vjs js then addJointValues jv js (parseTokens pn (tokenize jval))
    else jv
  | _, _ => jv

/-- One `<group_state>` element. -/
def processGroupState (m : UrdfModel) (vjs : List VirtualJoint)
    (groups : List Group) (pn : String → Option Int) (e : XmlElement) :
    Option GroupState :=
  match e.attrVal "name", e.attrVal "group" with
  | some sn, some gn =>
    let gns := trimStr gn
    if groups.any (fun g => g.name_ == gns) then
      some { name_ := trimStr sn, group_ := gns,
             joint_values_ :=
               (e.childrenTagged "joint").foldl (stepStateJoint m vjs pn) [] }
    else none
  | _, _ => none

def loadGroupStates (m : UrdfModel) (vjs : List VirtualJoint)
    (groups : List Group) (pn : String → Option Int) (robot : XmlElement) :
    List GroupState :=
  (robot.childrenTagged "group_state").filterMap (processGroupState m vjs groups pn)

/-! ### End effectors (`loadEndEffectors`) -/

def processEndEffector (m : UrdfModel) (groups : List Group) (e : XmlElement) :
    Option EndEffector :=
  match e.attrVal "name" with
  | none => none
  | some en =>
    match e.attrVal "group" with
    | none => none
    | some gn =>
      let gns := trimStr gn
      if groups.any (fun g => g.name_ == gns) then
        match e.attrVal "parent_link" with
        | none => none
        | some pl =>
          let pls := trimStr pl
          if m.hasLink pls then
            some { name_ := trimStr en, component_group_ := gns, parent_link_ := pls }
          else none
      else none

def loadEndEffectors (m : UrdfModel) (groups : List Group) (robot : XmlElement) :
    List EndEffector :=
  (robot.childrenTagged "end_effector").filterMap (processEndEffector m groups)

/-! ### Visual sensors (`loadVisualSensors`) -/

def processVisualSensor (pn : String → Option Int) (e : XmlElement) :
    Option VisualSensor :=
  match e.attrVal "name", e.attrVal "frame", e.attrVal "fov_angle",
        e.attrVal "min_range", e.attrVal "max_range" with
  | some sn, some fr, some fov, some mn, some mx =>
    match pn fov, pn mn, pn mx with
    | some fv, some mnv, some mxv =>
      some { name_ := trimStr sn, frame_ := trimStr fr,
             fov_angle_ := fv, min_range_ := mnv, max_range_ := mxv }
    | _, _, _ => none
  | _, _, _, _, _ => none

def loadVisualSensors (pn : String → Option Int) (robot : XmlElement) :
    List VisualSensor :=
  (robot.childrenTagged "visual_sensor").filterMap (processVisualSensor pn)

/-! ### Disabled collision pairs (`loadDisabledCollisions`) -/

def processDisabledCollision (m : UrdfModel) (e : XmlElement) :
    Option (String × String) :=
  match e.attrVal "link1", e.attrVal "link2" with
  | some l1, some l2 =>
    let s1 := trimStr l1
    let s2 := trimStr l2
    if m.hasLink s1 then
      if m.hasLink s2 then some (s1, s2) else none
    else none
  | _, _ => none

def loadDisabledCollisions (m : UrdfModel) (robot : XmlElement) :
    List (String × String) :=
  (robot.childrenTagged "disable_collisions").filterMap (processDisabledCollision m)

/-! ### Entry points (`initXml`, `initString`, `initFile`) -/

/-- `initXml(urdf_model, TiXmlElement*)`: clears the model first, then
validates the root tag, reads the robot name, and runs the six loaders
in order.  The boolean is the return value. -/
def initXmlElem (m : UrdfModel) (pn : String → Option Int) (fuel : Nat)
    (rx : Option XmlElement) (prior : Model) : Bool × Model :=
  let c := prior.clear
  match rx with
  | none => (false, c)
  | some robot =>
    if robot.tag ≠ "robot" then (false, c)
    else
      let nm :=
        match robot.attrVal "name" with
        | none => c.name_
        | some n => trimStr n
      let vjs := loadVirtualJoints m robot
      let gs := loadGroups m vjs fuel robot
      (true,
       { name_ := nm,
         groups_ := gs,
         group_states_ := loadGroupStates m vjs gs pn robot,
         virtual_joints_ := vjs,
         end_effectors_ := loadEndEffectors m gs robot,
         visual_sensors_ := loadVisualSensors pn robot,
         disabled_collisions_ := loadDisabledCollisions m robot })

/-- `initXml(urdf_model, TiXmlDocument*)`: looks up the `robot` root
element; on failure it returns `false` without touching the model. -/
def initXmlDoc (m : UrdfModel) (pn : String → Option Int) (fuel : Nat)
    (xd : Option XmlDocument) (prior : Model) : Bool × Model :=
  let rx :=
    match xd with
    | none => none
    | some d => d.findRobot
  match rx with
  | none => (false, prior)
  | some r => initXmlElem m pn fuel (some r) prior

/-- `initString`: parse the text (an external collaborator, embedded
as the parameter `parseXml`) and load the resulting document. -/
def initString (m : UrdfModel) (pn : String → Option Int) (fuel : Nat)
    (parseXml : String → XmlDocument) (s : String) (prior : Model) : Bool × Model :=
  initXmlDoc m pn fuel (some (parseXml s)) prior

/-- `initFile`: read the file (the file system is the parameter `fs`);
an unopenable file fails without touching the model. -/
def initFile (m : UrdfModel) (pn : String → Option Int) (fuel : Nat)
    (parseXml : String → XmlDocument) (fs : String → Option String)
    (filename : String) (prior : Model) : Bool × Model :=
  match fs filename with
  | none => (false, prior)
  | some text => initString m pn fuel parseXml text prior

/-! ### Specification-side notions

These definitions follow the wording of the specification ("the walk
from the tip up through successive parent links", "the set of nodes
visited", ...) rather than the control flow of the source; the theorems
below relate them to the embedded code. -/

/-- The ancestor walk from `s` up through successive parent links, as
a list of visited link names (at most `fuel` of them). -/
def upPath (m : UrdfModel) : Nat → String → List String
  | 0, _ => []
  | fuel + 1, s =>
    s :: (match m.parentOf s with
          | none => []
          | some p => upPath m fuel p)

/-- The prefix of a walk up to and including the first occurrence of
`x` (the whole walk when `x` never occurs): the nodes the tip walk
actually visits before stopping. -/
def upTo (x : String) : List String → List String
  | [] => []
  | a :: r => if a = x then [a] else a :: upTo x r

/-- The root the ancestor walk from `s` reaches, when it terminates
within `fuel` steps. -/
def walkRoot (m : UrdfModel) : Nat → String → Option String
  | 0, _ => none
  | fuel + 1, s =>
    match m.parentOf s with
    | none => some s
    | some p => walkRoot m fuel p

/-- The chain acceptance condition as the specification words it:
the base is encountered on the tip walk, or some node of the base walk
lies in the set of nodes visited by the tip walk. -/
def chainSpecOk (m : UrdfModel) (fuel : Nat) (base tip : String) : Prop :=
  base ∈ upPath m fuel tip ∨
    ∃ x ∈ upPath m fuel base, x ∈ upTo base (upPath m fuel tip)

/-- The virtual-joint type normalization as the specification words
it: the trimmed, lowercased input when that is a recognized type, and
`"fixed"` otherwise. -/
def vjTypeSpec (t : String) : String :=
  let s := lowerStr (trimStr t)
  if s = "planar" ∨ s = "floating" ∨ s = "fixed" then s else "fixed"

/-- The trimmed `name` attributes of the document's `group` elements,
in document order (one per element that carries a name). -/
def declaredGroupNames (robot : XmlElement) : List String :=
  (robot.childrenTagged "group").filterMap (fun e => (e.attrVal "name").map trimStr)

/-- The least set of group names closed under the marking rule of the
dependency resolver: a group's name is derivable when every name in
its subgroup list is. -/
inductive Satisfiable (gs : List Group) : String → Prop where
  | mk (g : Group) (hg : g ∈ gs) (hs : ∀ s ∈ g.subgroups_, Satisfiable gs s) :
      Satisfiable gs g.name_

/-- One step of the subgroup reference relation: some group of `gs`
named `a` lists `b` as a subgroup. -/
def subStep (gs : List Group) (a b : String) : Prop :=
  ∃ g, g ∈ gs ∧ g.name_ = a ∧ b ∈ g.subgroups_

/-! ### Concrete instances used by witnesses and counterexamples

`demoParse` stands in for the external numeric parser on the tokens
these examples use: it parses `"1"` and `"3"` and fails on anything
else (in particular on `"abc"`). -/

def demoParse (s : String) : Option Int :=
  [("1", (1 : Int)), ("3", 3)].lookup s

def cxUrdf : UrdfModel :=
  { name := "r", links := [], joints := ["j"], parents := [] }

def cxGroup : Group :=
  { name_ := "g", links_ := [], joints_ := [], chains_ := [], subgroups_ := [] }

/-- A `group_state` whose joint value list is `"1 abc 3"`. -/
def cxStateElem : XmlElement :=
  .node "group_state" [("name", "s"), ("group", "g")]
    [.node "joint" [("name", "j"), ("value", "1 abc 3")] []]

/-- A three-link kinematic tree `hand → wrist → root`. -/
def chainM : UrdfModel :=
  { name := "r", links := ["root", "wrist", "hand"], joints := [],
    parents := [("hand", "wrist"), ("wrist", "root")] }

def selfChainElem : XmlElement :=
  .node "chain" [("base_link", "hand"), ("tip_link", "hand")] []

def chainElemRH : XmlElement :=
  .node "chain" [("base_link", "root"), ("tip_link", "hand")] []

/-- A group in a direct subgroup self-cycle... -/
def cycDupA : Group :=
  { name_ := "a", links_ := [], joints_ := [], chains_ := [], subgroups_ := ["a"] }

/-- ...and a second group carrying the same name with no subgroups. -/
def plainA : Group :=
  { name_ := "a", links_ := [], joints_ := [], chains_ := [], subgroups_ := [] }

def wgA : Group :=
  { name_ := "a", links_ := [], joints_ := [], chains_ := [], subgroups_ := ["b"] }

def wgB : Group :=
  { name_ := "b", links_ := [], joints_ := [], chains_ := [], subgroups_ := ["a"] }

/-- A robot document declaring two groups with the same name. -/
def cxDupRobot : XmlElement :=
  .node "robot" [("name", "r")]
    [.node "group" [("name", "a")] [], .node "group" [("name", "a")] []]

def okRobot : XmlElement :=
  .node "robot" [("name", "r")] [.node "group" [("name", "g")] []]

def priorM : Model := { Model.empty with name_ := "x" }

def okDoc : XmlDocument := ⟨[XmlElement.node "robot" [("name", "r")] []]⟩

def okModel : Model := { Model.empty with name_ := "r" }

def vjUrdf : UrdfModel :=
  { name := "r", links := ["l"], joints := [], parents := [] }

def vjElem : XmlElement :=
  .node "virtual_joint"
    [("name", "vj"), ("child_link", "l"), ("parent_frame", "world"),
     ("type", " FLOATING ")] []

/-! ### Chain validator lemmas -/

lemma chainSearchTip_eq (m : UrdfModel) (base : String) :
    ∀ (f : Nat) (s : String),
      chainSearchTip m base f s =
        (decide (base ∈ upPath m f s), upTo base (upPath m f s)) := by
  intro f
  induction f with
  | zero => intro s; simp [chainSearchTip, upPath, upTo]
  | succ n ih =>
    intro s
    by_cases hs : s = base
    · subst hs; simp [chainSearchTip, upPath, upTo]
    · cases hp : m.parentOf s with
      | none =>
        simp [chainSearchTip, upPath, upTo, hs, hp, Ne.symm hs]
      | some p =>
        simp [chainSearchTip, upPath, upTo, hs, hp, ih p, Ne.symm hs]

lemma chainSearchBase_eq (m : UrdfModel) (seen : List String) :
    ∀ (f : Nat) (s : String),
      chainSearchBase m seen f s = (upPath m f s).any (fun x => decide (x ∈ seen)) := by
  intro f
  induction f with
  | zero => intro s; simp [chainSearchBase, upPath]
  | succ n ih =>
    intro s
    by_cases hs : s ∈ seen
    · simp [chainSearchBase, upPath, hs]
    · cases hp : m.parentOf s with
      | none => simp [chainSearchBase, upPath, hs, hp]
      | some p => simp [chainSearchBase, upPath, hs, hp, ih p]

lemma upTo_of_not_mem (x : String) : ∀ (l : List String), x ∉ l → upTo x l = l := by
  intro l
  induction l with
  | nil => intro _; rfl
  | cons a r ih =>
    intro h
    have ha : ¬a = x := fun he => h (he ▸ List.mem_cons_self a r)
    simp only [upTo, if_neg ha]
    rw [ih (fun hm => h (List.mem_cons_of_mem a hm))]

lemma walkRoot_mem_upPath (m : UrdfModel) :
    ∀ (f : Nat) (s r : String), walkRoot m f s = some r → r ∈ upPath m f s := by
  intro f
  induction f with
  | zero => intro s r h; simp [walkRoot] at h
  | succ n ih =>
    intro s r h
    cases hp : m.parentOf s with
    | none =>
      rw [walkRoot, hp] at h
      cases h
      simp [upPath, hp]
    | some p =>
      rw [walkRoot, hp] at h
      have := ih p r h
      simp [upPath, hp, this]

/-- The fused two-loop check of the source equals the specification's
walk-based acceptance condition. -/
lemma chainOk_iff (m : UrdfModel) (fuel : Nat) (b t : String) :
    chainOk m fuel b t = true ↔ chainSpecOk m fuel b t := by
  by_cases hb : b ∈ upPath m fuel t
  · simp [chainOk, chainSearchTip_eq, hb, chainSpecOk]
  · simp [chainOk, chainSearchTip_eq, chainSearchBase_eq, hb, chainSpecOk,
      List.any_eq_true]

lemma chainOk_self (m : UrdfModel) (fuel : Nat) (x : String) (h : 0 < fuel) :
    chainOk m fuel x x = true := by
  cases fuel with
  | zero => omega
  | succ n => simp [chainOk, chainSearchTip]

/-! ### Group dependency resolver lemmas -/

/-- A scan only appends: the result is the input followed by some new
names, all of them names of scanned groups, and no-duplication is
preserved. -/
lemma scanAux_spec (l : List Group) :
    ∀ (known : List String),
      ∃ e, List.foldl scanStep known l = known ++ e ∧
        (∀ x ∈ e, x ∈ l.map Group.name_) ∧
        (known.Nodup → (known ++ e).Nodup) := by
  induction l with
  | nil => intro known; exact ⟨[], by simp, by simp, by simp⟩
  | cons g l ih =>
    intro known
    by_cases h1 : g.name_ ∈ known
    · obtain ⟨e, he, hmem, hnd⟩ := ih known
      refine ⟨e, ?_, ?_, hnd⟩
      · simpa [scanStep, h1] using he
      · intro x hx
        exact List.mem_cons_of_mem _ (hmem x hx)
    · by_cases h2 : g.subgroups_.all (fun s => decide (s ∈ known)) = true
      · obtain ⟨e, he, hmem, hnd⟩ := ih (known ++ [g.name_])
        have hstep : scanStep known g = known ++ [g.name_] := by
          simp [scanStep, h1, h2]
        refine ⟨g.name_ :: e, ?_, ?_, ?_⟩
        · rw [List.foldl_cons, hstep, he]
          simp
        · intro x hx
          rcases List.mem_cons.mp hx with hx | hx
          · exact hx ▸ List.mem_cons_self _ _
          · exact List.mem_cons_of_mem _ (hmem x hx)
        · intro hk
          have hk2 : (known ++ [g.name_]).Nodup := by
            simp [List.nodup_append, hk, h1]
          have h3 := hnd hk2
          rw [List.append_cons]
          exact he ▸ h3
      · obtain ⟨e, he, hmem, hnd⟩ := ih known
        have hstep : scanStep known g = known := by
          simp only [scanStep, if_neg h1]
          rw [if_neg h2]
        refine ⟨e, ?_, ?_, hnd⟩
        · rw [List.foldl_cons, hstep, he]
        · intro x hx
          exact List.mem_cons_of_mem _ (hmem x hx)

lemma scanGroups_spec (gs : List Group) (known : List String) :
    ∃ e, scanGroups gs known = known ++ e ∧
      (∀ x ∈ e, x ∈ gs.map Group.name_) ∧
      (known.Nodup → (known ++ e).Nodup) :=
  scanAux_spec gs known

/-- Every name a scan adds is derivable under the marking rule. -/
lemma scanAux_sound (gs : List Group) :
    ∀ (l : List Group) (known : List String),
      (∀ g ∈ l, g ∈ gs) → (∀ x ∈ known, Satisfiable gs x) →
      ∀ x ∈ List.foldl scanStep known l, Satisfiable gs x := by
  intro l
  induction l with
  | nil => intro known _ hk x hx; exact hk x hx
  | cons g l ih =>
    intro known hl hk x hx
    rw [List.foldl_cons] at hx
    refine ih (scanStep known g) (fun g' h => hl g' (List.mem_cons_of_mem _ h)) ?_ x hx
    intro y hy
    by_cases h1 : g.name_ ∈ known
    · rw [scanStep, if_pos h1] at hy
      exact hk y hy
    · by_cases h2 : g.subgroups_.all (fun s => decide (s ∈ known)) = true
      · rw [scanStep, if_neg h1, if_pos h2] at hy
        rcases List.mem_append.mp hy with hy | hy
        · exact hk y hy
        · have hy' : y = g.name_ := by simpa using hy
          subst hy'
          refine Satisfiable.mk g (hl g (List.mem_cons_self g l)) ?_
          intro s hs
          exact hk s (of_decide_eq_true (List.all_eq_true.mp h2 s hs))
      · rw [scanStep, if_neg h1, if_neg h2] at hy
        exact hk y hy

lemma computeKnown_sound (gs : List Group) :
    ∀ (f : Nat) (known : List String),
      (∀ x ∈ known, Satisfiable gs x) →
      ∀ x ∈ computeKnown gs f known, Satisfiable gs x := by
  intro f
  induction f with
  | zero => intro known hk x hx; exact hk x hx
  | succ n ih =>
    intro known hk x hx
    simp only [computeKnown] at hx
    by_cases hl : (scanGroups gs known).length = known.length
    · rw [if_pos hl] at hx
      exact hk x hx
    · rw [if_neg hl] at hx
      exact ih _ (fun y hy => scanAux_sound gs gs known (fun _ h => h) hk y hy) x hx

lemma knownNames_sound (gs : List Group) : ∀ x ∈ knownNames gs, Satisfiable gs x :=
  computeKnown_sound gs _ [] (by simp)

lemma computeKnown_nodup_subset (gs : List Group) :
    ∀ (f : Nat) (known : List String), known.Nodup →
      (∀ x ∈ known, x ∈ gs.map Group.name_) →
      (computeKnown gs f known).Nodup ∧
        ∀ x ∈ computeKnown gs f known, x ∈ gs.map Group.name_ := by
  intro f
  induction f with
  | zero => intro known h1 h2; exact ⟨h1, h2⟩
  | succ n ih =>
    intro known h1 h2
    simp only [computeKnown]
    by_cases hl : (scanGroups gs known).length = known.length
    · rw [if_pos hl]
      exact ⟨h1, h2⟩
    · rw [if_neg hl]
      obtain ⟨e, he, hmem, hnd⟩ := scanGroups_spec gs known
      refine ih (scanGroups gs known) (he ▸ hnd h1) ?_
      intro x hx
      rw [he] at hx
      rcases List.mem_append.mp hx with hx | hx
      · exact h2 x hx
      · exact hmem x hx

lemma knownNames_nodup (gs : List Group) : (knownNames gs).Nodup :=
  (computeKnown_nodup_subset gs _ [] (by simp) (by simp)).1

lemma knownNames_subset (gs : List Group) :
    ∀ x ∈ knownNames gs, x ∈ gs.map Group.name_ :=
  (computeKnown_nodup_subset gs _ [] (by simp) (by simp)).2

lemma nodup_subset_length {k ns : List String} (h1 : k.Nodup)
    (h2 : ∀ x ∈ k, x ∈ ns) : k.length ≤ ns.length :=
  calc k.length = k.toFinset.card := (List.toFinset_card_of_nodup h1).symm
  _ ≤ ns.toFinset.card :=
      Finset.card_le_card
        (fun x hx => List.mem_toFinset.mpr (h2 x (List.mem_toFinset.mp hx)))
  _ ≤ ns.length := ns.toFinset_card_le

/-- `gs.length + 1` scans always reach the fixed point: scanning the
computed known set adds nothing. -/
lemma computeKnown_stable (gs : List Group) :
    ∀ (f : Nat) (known : List String), known.Nodup →
      (∀ x ∈ known, x ∈ gs.map Group.name_) →
      gs.length + 1 ≤ f + known.length →
      scanGroups gs (computeKnown gs f known) = computeKnown gs f known := by
  intro f
  induction f with
  | zero =>
    intro known h1 h2 h3
    exfalso
    have h4 := nodup_subset_length h1 h2
    rw [List.length_map] at h4
    omega
  | succ n ih =>
    intro known h1 h2 h3
    obtain ⟨e, he, hmem, hnd⟩ := scanGroups_spec gs known
    simp only [computeKnown]
    by_cases hl : (scanGroups gs known).length = known.length
    · rw [if_pos hl]
      have hel : e = [] := by
        have h5 : known.length + e.length = known.length := by
          rw [← List.length_append, ← he, hl]
        exact List.length_eq_zero.mp (by omega)
      rw [he, hel, List.append_nil]
    · rw [if_neg hl]
      have hlen : (scanGroups gs known).length = known.length + e.length := by
        rw [he, List.length_append]
      have hepos : 1 ≤ e.length := by
        rcases Nat.eq_zero_or_pos e.length with h0 | h0
        · exact absurd (by omega : (scanGroups gs known).length = known.length) hl
        · omega
      refine ih (scanGroups gs known) (he ▸ hnd h1) ?_ (by omega)
      intro x hx
      rw [he] at hx
      rcases List.mem_append.mp hx with hx | hx
      · exact h2 x hx
      · exact hmem x hx

lemma knownNames_stable (gs : List Group) :
    scanGroups gs (knownNames gs) = knownNames gs :=
  computeKnown_stable gs (gs.length + 1) [] (by simp) (by simp) (by omega)

/-- `resolveGroups` always equals the filter by known names (also in
the size-equal fast path, where every name is known). -/
lemma resolveGroups_eq_filter (gs : List Group) :
    resolveGroups gs = gs.filter (fun g => decide (g.name_ ∈ knownNames gs)) := by
  simp only [resolveGroups]
  by_cases hl : (knownNames gs).length = gs.length
  · rw [if_pos hl]
    symm
    apply List.filter_eq_self.mpr
    intro g hg
    have hnd := knownNames_nodup gs
    have hsub := knownNames_subset gs
    have hset : (knownNames gs).toFinset = (gs.map Group.name_).toFinset := by
      apply Finset.eq_of_subset_of_card_le
      · intro x hx
        exact List.mem_toFinset.mpr (hsub x (List.mem_toFinset.mp hx))
      · calc (gs.map Group.name_).toFinset.card
            ≤ (gs.map Group.name_).length := (gs.map Group.name_).toFinset_card_le
        _ = gs.length := List.length_map _ _
        _ = (knownNames gs).length := hl.symm
        _ = (knownNames gs).toFinset.card := (List.toFinset_card_of_nodup hnd).symm
    have hm : g.name_ ∈ gs.map Group.name_ := List.mem_map_of_mem _ hg
    have : g.name_ ∈ (knownNames gs).toFinset := by
      rw [hset]
      exact List.mem_toFinset.mpr hm
    simpa using List.mem_toFinset.mp this
  · rw [if_neg hl]

lemma resolveGroups_sublist (gs : List Group) :
    List.Sublist (resolveGroups gs) gs := by
  rw [resolveGroups_eq_filter]
  exact List.filter_sublist gs

lemma satisfiable_inv {gs : List Group} {n : String} (h : Satisfiable gs n) :
    ∃ g, g ∈ gs ∧ g.name_ = n ∧ ∀ s ∈ g.subgroups_, Satisfiable gs s := by
  cases h with
  | mk g hg hs => exact ⟨g, hg, rfl, hs⟩

lemma satisfiable_mem_names {gs : List Group} {n : String} (h : Satisfiable gs n) :
    n ∈ gs.map Group.name_ := by
  obtain ⟨g, hg, hn, _⟩ := satisfiable_inv h
  exact hn ▸ List.mem_map_of_mem _ hg

lemma name_inj {gs : List Group} (hnd : (gs.map Group.name_).Nodup)
    {g1 g2 : Group} (h1 : g1 ∈ gs) (h2 : g2 ∈ gs) (he : g1.name_ = g2.name_) :
    g1 = g2 :=
  List.inj_on_of_nodup_map hnd h1 h2 he

/-- When group names are pairwise distinct, a derivable name cannot
lie on a subgroup cycle. -/
lemma satisfiable_no_cycle {gs : List Group} (hnd : (gs.map Group.name_).Nodup) :
    ∀ {n : String}, Satisfiable gs n → ¬ Relation.TransGen (subStep gs) n n := by
  intro n h
  induction h with
  | mk g hg hs ih =>
    intro hcyc
    obtain ⟨b, hstep, hrest⟩ := Relation.TransGen.head'_iff.mp hcyc
    obtain ⟨g', hg', hname, hb⟩ := hstep
    have hgg : g' = g := name_inj hnd hg' hg hname
    subst hgg
    exact ih b hb (Relation.TransGen.tail' hrest ⟨g', hg', rfl, hb⟩)

lemma satisfiable_no_dangling {gs : List Group} (hnd : (gs.map Group.name_).Nodup)
    {g : Group} (hg : g ∈ gs) {s : String} (hs : s ∈ g.subgroups_)
    (hmiss : s ∉ gs.map Group.name_) : ¬ Satisfiable gs g.name_ := by
  intro h
  obtain ⟨g', hg', hname, hsub⟩ := satisfiable_inv h
  have hgg : g' = g := name_inj hnd hg' hg hname
  subst hgg
  exact hmiss (satisfiable_mem_names (hsub s hs))

/-! ### Entry point and loader lemmas -/

/-- The root-element entry point clears the model before anything
else, so its result never depends on the prior contents. -/
lemma initXmlElem_prior_irrel (m : UrdfModel) (pn : String → Option Int)
    (fuel : Nat) (rx : Option XmlElement) (p1 p2 : Model) :
    initXmlElem m pn fuel rx p1 = initXmlElem m pn fuel rx p2 := rfl

/-- The value loop keeps the parsed tokens before the first failing
one and drops everything from the failing token on. -/
lemma parseTokens_concat (pn : String → Option Int) (bad : String)
    (rest : List String) (hbad : pn bad = none) :
    ∀ (good : List String), (∀ tok ∈ good, (pn tok).isSome) →
      parseTokens pn (good ++ bad :: rest) = good.filterMap pn := by
  intro good
  induction good with
  | nil => intro _; simp [parseTokens, hbad]
  | cons tok ts ih =>
    intro hg
    obtain ⟨v, hv⟩ := Option.isSome_iff_exists.mp (hg tok (List.mem_cons_self tok ts))
    simp [parseTokens, hv, List.filterMap_cons,
      ih (fun x hx => hg x (List.mem_cons_of_mem _ hx))]

lemma processGroup_name (m : UrdfModel) (vjs : List VirtualJoint) (fuel : Nat)
    (e : XmlElement) :
    (processGroup m vjs fuel e).map Group.name_ = (e.attrVal "name").map trimStr := by
  cases h : e.attrVal "name" <;> simp [processGroup, h]

/-- The names of the parsed groups, in order, are exactly the declared
(trimmed) group names of the document. -/
lemma parsedNames (m : UrdfModel) (vjs : List VirtualJoint) (fuel : Nat)
    (robot : XmlElement) :
    (((robot.childrenTagged "group").filterMap (processGroup m vjs fuel)).map
        Group.name_) = declaredGroupNames robot := by
  rw [List.map_filterMap]
  unfold declaredGroupNames
  congr 1
  funext e
  exact processGroup_name m vjs fuel e

/-! ### Claim C1 — group state value parsing -/

/-- C1, counterexample.  The claim says a `group_state` joint's stored
value sequence contains exactly the tokens that parse, skipping each
unparsable token individually; on `value="1 abc 3"` (with a parser
accepting `"1"` and `"3"` and rejecting `"abc"`) that predicts the
sequence `[1, 3]`.  The code wraps the whole token loop in a single
`try` block, so the loader stores `[1]`: the tokens after the first
failure are discarded. -/
theorem group_state_value_stops_cex :
    processGroupState cxUrdf [] [cxGroup] demoParse cxStateElem =
      some { name_ := "s", group_ := "g", joint_values_ := [("j", [1])] }
    ∧ (tokenize "1 abc 3").filterMap demoParse = [1, 3]
    ∧ [(("j" : String), [(1 : Int)])] ≠ [("j", [1, 3])] :=
  ⟨by decide, by decide, by decide⟩

/-- C1, amended.  For a value list that tokenizes as
`good ++ bad :: rest` with every token of `good` parsable and `bad`
unparsable, the stored value sequence is exactly the parsed `good`
prefix (the first unparsable token aborts the remainder of that value
list); and the joint loop of a `group_state` still processes every
remaining `joint` element afterwards. -/
theorem group_state_value_front_run (pn : String → Option Int)
    (good : List String) (bad : String) (rest : List String)
    (hgood : ∀ tok ∈ good, (pn tok).isSome) (hbad : pn bad = none) :
    parseTokens pn (good ++ bad :: rest) = good.filterMap pn
    ∧ ∀ (m : UrdfModel) (vjs : List VirtualJoint) (jv : List (String × List Int))
        (js : List XmlElement) (e : XmlElement),
        List.foldl (stepStateJoint m vjs pn) jv (js ++ [e]) =
          stepStateJoint m vjs pn (List.foldl (stepStateJoint m vjs pn) jv js) e := by
  refine ⟨parseTokens_concat pn bad rest hbad good hgood, ?_⟩
  intro m vjs jv js e
  rw [List.foldl_append]
  rfl

/-- C1 witness: the amended statement at the concrete value list
`"1" "abc" "3"`. -/
theorem group_state_value_front_run_witness :
    parseTokens demoParse (["1"] ++ "abc" :: ["3"]) = ["1"].filterMap demoParse :=
  (group_state_value_front_run demoParse ["1"] "abc" ["3"]
    (by decide) (by decide)).1

/-! ### Claim C2 — chain acceptance condition -/

/-- C2.  For a `chain` element whose trimmed base and tip both name
existing links, the pair is appended iff the base is encountered on
the ancestor walk from the tip, or some node of the ancestor walk from
the base lies among the nodes visited by the tip walk; and a chain
with base equal to tip is always accepted. -/
theorem chain_accept_iff (m : UrdfModel) (fuel : Nat) (e : XmlElement) (b t : String)
    (hb : e.attrVal "base_link" = some b) (ht : e.attrVal "tip_link" = some t)
    (hbl : m.hasLink (trimStr b) = true) (htl : m.hasLink (trimStr t) = true) :
    (processChain m fuel e = some (trimStr b, trimStr t) ↔
      chainSpecOk m fuel (trimStr b) (trimStr t))
    ∧ (trimStr b = trimStr t → 0 < fuel →
        processChain m fuel e = some (trimStr b, trimStr t)) := by
  have hpc : processChain m fuel e =
      (if chainOk m fuel (trimStr b) (trimStr t) then
        some (trimStr b, trimStr t) else none) := by
    simp [processChain, hb, ht, hbl, htl]
  constructor
  · rw [hpc]
    cases hc : chainOk m fuel (trimStr b) (trimStr t) with
    | true => simp [(chainOk_iff m fuel _ _).mp hc]
    | false =>
      have hns : ¬ chainSpecOk m fuel (trimStr b) (trimStr t) := fun hs => by
        rw [(chainOk_iff m fuel _ _).mpr hs] at hc
        cases hc
      simp [hc, hns]
  · intro heq hf
    rw [hpc, heq]
    simp [chainOk_self m fuel (trimStr t) hf]

/-- C2 witness: a base-equals-tip chain on the three-link tree. -/
theorem chain_accept_iff_witness :
    processChain chainM 4 selfChainElem = some ("hand", "hand") :=
  (chain_accept_iff chainM 4 selfChainElem "hand" "hand" rfl rfl
    (by decide) (by decide)).2 (by decide) (by decide)

/-! ### Claim C10 — single rooted tree makes rejection unreachable -/

/-- C10.  If every link's ancestor walk terminates at one common root
(within the walk fuel), then every chain element whose trimmed base
and tip name existing links is accepted: the tip walk records its
whole path including the root, and the base walk reaches the root, a
recorded node, at the latest. -/
theorem tree_chain_always_accepted (m : UrdfModel) (fuel : Nat) (e : XmlElement)
    (b t root : String)
    (hroot : ∀ l ∈ m.links, walkRoot m fuel l = some root)
    (hb : e.attrVal "base_link" = some b) (ht : e.attrVal "tip_link" = some t)
    (hbl : trimStr b ∈ m.links) (htl : trimStr t ∈ m.links) :
    processChain m fuel e = some (trimStr b, trimStr t) := by
  have hbl2 : m.hasLink (trimStr b) = true := by
    simp [UrdfModel.hasLink, hbl]
  have htl2 : m.hasLink (trimStr t) = true := by
    simp [UrdfModel.hasLink, htl]
  have hco : chainOk m fuel (trimStr b) (trimStr t) = true := by
    apply (chainOk_iff m fuel _ _).mpr
    by_cases hmem : trimStr b ∈ upPath m fuel (trimStr t)
    · exact Or.inl hmem
    · refine Or.inr ⟨root, walkRoot_mem_upPath m fuel _ root (hroot _ hbl), ?_⟩
      rw [upTo_of_not_mem _ _ hmem]
      exact walkRoot_mem_upPath m fuel _ root (hroot _ htl)
  simp [processChain, hb, ht, hbl2, htl2, hco]

/-- C10 witness: the chain `(root, hand)` on the tree
`hand → wrist → root`. -/
theorem tree_chain_always_accepted_witness :
    processChain chainM 4 chainElemRH = some ("root", "hand") :=
  tree_chain_always_accepted chainM 4 chainElemRH "root" "hand" "root"
    (by decide) rfl rfl (by decide) (by decide)

/-! ### Claim C3 — subgroup fixed-point closure -/

/-- C3, counterexample.  The claim says every group in a direct or
transitive subgroup cycle is removed.  `cycDupA` is in a direct
self-cycle (its own name is in its subgroup list, so the subgroup
relation steps from `"a"` to `"a"`), yet it survives resolution,
because a second group with the same name `"a"` and no subgroups makes
the name `"a"` known. -/
theorem group_closure_cycle_survivor_cex :
    resolveGroups [cycDupA, plainA] = [cycDupA, plainA]
    ∧ cycDupA ∈ resolveGroups [cycDupA, plainA]
    ∧ Relation.TransGen (subStep [cycDupA, plainA]) cycDupA.name_ cycDupA.name_ :=
  ⟨by decide, by decide,
    Relation.TransGen.single ⟨cycDupA, by decide, rfl, by decide⟩⟩

/-- C3, amended.  A group survives iff its name is in the computed
known set (and survivors keep document order, being a filter of the
parsed list); the known set is a fixed point of the scan (iterating
further adds no mark); and provided the parsed group names are
pairwise distinct, every group on a direct or transitive subgroup
cycle and every group referencing a subgroup name no group carries is
removed. -/
theorem group_closure_amended (gs : List Group) :
    resolveGroups gs = gs.filter (fun g => decide (g.name_ ∈ knownNames gs))
    ∧ scanGroups gs (knownNames gs) = knownNames gs
    ∧ ((gs.map Group.name_).Nodup → ∀ g ∈ gs,
        (Relation.TransGen (subStep gs) g.name_ g.name_ ∨
          ∃ s ∈ g.subgroups_, s ∉ gs.map Group.name_) →
        g ∉ resolveGroups gs) := by
  refine ⟨resolveGroups_eq_filter gs, knownNames_stable gs, ?_⟩
  intro hnd g hg hbad hmem
  rw [resolveGroups_eq_filter] at hmem
  have hk : g.name_ ∈ knownNames gs := by
    have := (List.mem_filter.mp hmem).2
    simpa using this
  have hsat : Satisfiable gs g.name_ := knownNames_sound gs _ hk
  rcases hbad with hcyc | ⟨s, hs, hmiss⟩
  · exact satisfiable_no_cycle hnd hsat hcyc
  · exact satisfiable_no_dangling hnd hg hs hmiss hsat

/-- C3 witness: the two-group cycle `a ↔ b` — group `a` is removed. -/
theorem group_closure_amended_witness : wgA ∉ resolveGroups [wgA, wgB] :=
  (group_closure_amended [wgA, wgB]).2.2 (by decide) wgA (by decide)
    (Or.inl (Relation.TransGen.head ⟨wgA, by decide, rfl, by decide⟩
      (Relation.TransGen.single ⟨wgB, by decide, rfl, by decide⟩)))

/-! ### Claim C4 — uniqueness of surviving group names -/

/-- C4, counterexample.  The claim says the names in the final group
list are pairwise distinct for every loaded document.  A document
declaring two groups named `"a"` produces a final list carrying the
name `"a"` twice: the loader never deduplicates group names. -/
theorem group_names_duplicate_cex :
    (((initXmlElem cxUrdf demoParse 1 (some cxDupRobot) Model.empty).2.groups_).map
        Group.name_) = ["a", "a"]
    ∧ ¬ (["a", "a"] : List String).Nodup :=
  ⟨by decide, by decide⟩

/-- C4, amended.  When the declared (trimmed) group names of the
document are pairwise distinct, the names in the final group list are
pairwise distinct (the final list is a sublist of the parsed one, and
parsed names equal declared names). -/
theorem group_names_nodup_amended (m : UrdfModel) (pn : String → Option Int)
    (fuel : Nat) (robot : XmlElement) (prior : Model)
    (h : (declaredGroupNames robot).Nodup) :
    (((initXmlElem m pn fuel (some robot) prior).2.groups_).map Group.name_).Nodup := by
  by_cases htag : robot.tag = "robot"
  · have hgrps : (initXmlElem m pn fuel (some robot) prior).2.groups_ =
        loadGroups m (loadVirtualJoints m robot) fuel robot := by
      simp [initXmlElem, htag]
    rw [hgrps]
    unfold loadGroups
    rw [← parsedNames m (loadVirtualJoints m robot) fuel robot] at h
    exact h.sublist
      ((resolveGroups_sublist
        ((robot.childrenTagged "group").filterMap
          (processGroup m (loadVirtualJoints m robot) fuel))).map Group.name_)
  · simp [initXmlElem, htag, Model.clear, Model.empty]

/-- C4 witness: a document with one group named `g`. -/
theorem group_names_nodup_amended_witness :
    (((initXmlElem cxUrdf demoParse 1 (some okRobot) Model.empty).2.groups_).map
        Group.name_).Nodup :=
  group_names_nodup_amended cxUrdf demoParse 1 okRobot Model.empty (by decide)

/-! ### Claim C5 — reset on load -/

/-- C5, counterexample.  The claim says every entry point resets the
model before adding content, so prior contents never survive a load
attempt even when it fails.  Loading a document that has no `robot`
root element through the document entry point returns failure without
calling `clear`, leaving the prior (non-empty) model untouched. -/
theorem doc_load_failure_keeps_prior_cex :
    initXmlDoc cxUrdf demoParse 1 (some (XmlDocument.mk [])) priorM = (false, priorM)
    ∧ priorM ≠ Model.empty :=
  ⟨by decide, by decide⟩

/-- C5, amended.  The root-element entry point always resets first
(its result is independent of the prior model, also on failure); the
document, text and file entry points reset only once they reach the
root-element entry point: when the document has no `robot` root
element, or the file cannot be opened, they fail with the prior model
left unchanged. -/
theorem load_reset_amended :
    (∀ (m : UrdfModel) (pn : String → Option Int) (fuel : Nat)
        (rx : Option XmlElement) (p1 p2 : Model),
      initXmlElem m pn fuel rx p1 = initXmlElem m pn fuel rx p2)
    ∧ (∀ (m : UrdfModel) (pn : String → Option Int) (fuel : Nat) (prior : Model),
      initXmlDoc m pn fuel none prior = (false, prior))
    ∧ (∀ (m : UrdfModel) (pn : String → Option Int) (fuel : Nat) (d : XmlDocument)
        (prior : Model), d.findRobot = none →
      initXmlDoc m pn fuel (some d) prior = (false, prior))
    ∧ (∀ (m : UrdfModel) (pn : String → Option Int) (fuel : Nat) (d : XmlDocument)
        (r : XmlElement) (prior : Model), d.findRobot = some r →
      initXmlDoc m pn fuel (some d) prior = initXmlElem m pn fuel (some r) prior)
    ∧ (∀ (m : UrdfModel) (pn : String → Option Int) (fuel : Nat)
        (parseXml : String → XmlDocument) (fs : String → Option String)
        (fn : String) (prior : Model), fs fn = none →
      initFile m pn fuel parseXml fs fn prior = (false, prior)) := by
  refine ⟨fun _ _ _ _ _ _ => rfl, fun _ _ _ _ => rfl, ?_, ?_, ?_⟩
  · intro m pn fuel d prior hd
    simp [initXmlDoc, hd]
  · intro m pn fuel d r prior hd
    simp [initXmlDoc, hd]
  · intro m pn fuel parseXml fs fn prior hf
    simp [initFile, hf]

/-- C5 witness: the amended statement at a concrete empty document and
non-empty prior model. -/
theorem load_reset_amended_witness :
    initXmlDoc cxUrdf demoParse 1 (some (XmlDocument.mk [])) priorM = (false, priorM) :=
  load_reset_amended.2.2.1 cxUrdf demoParse 1 (XmlDocument.mk []) priorM rfl

/-! ### Claim C6 — failure conditions of the load -/

/-- C6.  Through every entry point, the load returns failure exactly
when the root element is absent or mis-tagged (for the file entry
point: or the file cannot be opened); all finer-grained validation
failures inside the loaders leave the return value `true`. -/
theorem load_failure_iff :
    (∀ (m : UrdfModel) (pn : String → Option Int) (fuel : Nat)
        (rx : Option XmlElement) (prior : Model),
      (initXmlElem m pn fuel rx prior).1 = true ↔
        ∃ r, rx = some r ∧ r.tag = "robot")
    ∧ (∀ (m : UrdfModel) (pn : String → Option Int) (fuel : Nat)
        (xd : Option XmlDocument) (prior : Model),
      (initXmlDoc m pn fuel xd prior).1 = true ↔
        ∃ d, xd = some d ∧ (d.findRobot).isSome)
    ∧ (∀ (m : UrdfModel) (pn : String → Option Int) (fuel : Nat)
        (parseXml : String → XmlDocument) (fs : String → Option String)
        (fn : String) (prior : Model),
      (initFile m pn fuel parseXml fs fn prior).1 = true ↔
        ∃ txt, fs fn = some txt ∧ ((parseXml txt).findRobot).isSome) := by
  refine ⟨?_, ?_, ?_⟩
  · intro m pn fuel rx prior
    cases rx with
    | none => simp [initXmlElem]
    | some r =>
      by_cases ht : r.tag = "robot"
      · simp [initXmlElem, ht]
      · simp [initXmlElem, ht]
  · intro m pn fuel xd prior
    cases xd with
    | none => simp [initXmlDoc]
    | some d =>
      cases hr : d.findRobot with
      | none => simp [initXmlDoc, hr]
      | some r =>
        have htag : r.tag = "robot" := by simpa using List.find?_some hr
        simp [initXmlDoc, hr, initXmlElem, htag]
  · intro m pn fuel parseXml fs fn prior
    cases hf : fs fn with
    | none => simp [initFile, hf]
    | some txt =>
      simp only [initFile, hf, initString]
      cases hr : (parseXml txt).findRobot with
      | none => simp [initXmlDoc, hr, hf]
      | some r =>
        have htag : r.tag = "robot" := by simpa using List.find?_some hr
        simp [initXmlDoc, hr, initXmlElem, htag, hf]

/-! ### Claim C7 — visual sensors are all-or-nothing -/

/-- C7.  A `visual_sensor` entry is appended iff all five attributes
are present and all three numeric fields parse; a failed numeric parse
discards the entire entry (no partial entry is possible). -/
theorem visual_sensor_all_or_nothing (pn : String → Option Int)
    (e robot : XmlElement) :
    ((processVisualSensor pn e).isSome ↔
      ∃ sn fr fov mn mx, e.attrVal "name" = some sn ∧ e.attrVal "frame" = some fr ∧
        e.attrVal "fov_angle" = some fov ∧ e.attrVal "min_range" = some mn ∧
        e.attrVal "max_range" = some mx ∧
        (pn fov).isSome ∧ (pn mn).isSome ∧ (pn mx).isSome)
    ∧ loadVisualSensors pn robot =
        (robot.childrenTagged "visual_sensor").filterMap (processVisualSensor pn) := by
  refine ⟨?_, rfl⟩
  cases h1 : e.attrVal "name" with
  | none => simp [processVisualSensor, h1]
  | some sn =>
    cases h2 : e.attrVal "frame" with
    | none => simp [processVisualSensor, h1, h2]
    | some fr =>
      cases h3 : e.attrVal "fov_angle" with
      | none => simp [processVisualSensor, h1, h2, h3]
      | some fov =>
        cases h4 : e.attrVal "min_range" with
        | none => simp [processVisualSensor, h1, h2, h3, h4]
        | some mn =>
          cases h5 : e.attrVal "max_range" with
          | none => simp [processVisualSensor, h1, h2, h3, h4, h5]
          | some mx =>
            cases h6 : pn fov <;> cases h7 : pn mn <;> cases h8 : pn mx <;>
              simp [processVisualSensor, h1, h2, h3, h4, h5, h6, h7, h8]

/-! ### Claim C8 — virtual joint type normalization -/

/-- C8.  For a `virtual_joint` element with all four attributes and an
existing child link, the stored type is the trimmed, lowercased input
when that is one of `planar`, `floating`, `fixed`, and `"fixed"`
otherwise — the joint is stored either way. -/
theorem virtual_joint_type_norm (m : UrdfModel) (e : XmlElement) (n c p t : String)
    (hn : e.attrVal "name" = some n) (hc : e.attrVal "child_link" = some c)
    (hcl : m.hasLink (trimStr c) = true) (hp : e.attrVal "parent_frame" = some p)
    (ht : e.attrVal "type" = some t) :
    processVirtualJoint m e =
      some { name_ := trimStr n, child_link_ := trimStr c,
             parent_frame_ := trimStr p, type_ := vjTypeSpec t } := by
  simp only [processVirtualJoint, hn, hc, hp, ht, hcl, if_true, vjTypeSpec]
  by_cases h1 : lowerStr (trimStr t) = "planar" ∨ lowerStr (trimStr t) = "floating" ∨
      lowerStr (trimStr t) = "fixed"
  · rw [if_pos h1, if_neg (by tauto)]
  · rw [if_neg h1, if_pos (by tauto)]

/-- C8 witness: type `" FLOATING "` is stored as `"floating"`. -/
theorem virtual_joint_type_norm_witness :
    processVirtualJoint vjUrdf vjElem =
      some { name_ := "vj", child_link_ := "l",
             parent_frame_ := "world", type_ := vjTypeSpec " FLOATING " } :=
  virtual_joint_type_norm vjUrdf vjElem "vj" "l" "world" " FLOATING "
    rfl rfl (by decide) rfl rfl

/-! ### Claim C9 — idempotent re-load -/

/-- C9.  If a document loads successfully from the empty model, then
loading it again into the resulting model yields the same result: the
root-element entry point resets first, so the prior contents are
irrelevant. -/
theorem reload_idempotent (m : UrdfModel) (pn : String → Option Int) (fuel : Nat)
    (xd : Option XmlDocument) (M : Model)
    (h : initXmlDoc m pn fuel xd Model.empty = (true, M)) :
    initXmlDoc m pn fuel xd M = (true, M) := by
  cases xd with
  | none => simp [initXmlDoc] at h
  | some d =>
    cases hr : d.findRobot with
    | none =>
      rw [initXmlDoc] at h
      simp only [hr] at h
      cases h
    | some r =>
      rw [initXmlDoc] at h ⊢
      simp only [hr] at h ⊢
      rw [initXmlElem_prior_irrel m pn fuel (some r) M Model.empty]
      exact h

/-- C9 witness: a concrete robot document loaded twice. -/
theorem reload_idempotent_witness :
    initXmlDoc cxUrdf demoParse 1 (some okDoc) okModel = (true, okModel) :=
  reload_idempotent cxUrdf demoParse 1 (some okDoc) okModel (by decide)

end Srdf
